import Mathlib

/-!
Shallow embedding of the IES (iterative ensemble smoother) update core of
ERT (file `ies_enkf.cpp`), together with theorems checking the module's
natural-language specification against the code.

Matrices of doubles are modelled as `Matrix (Fin r) (Fin c) ℚ` (exact
arithmetic idealization of floating point).  LAPACK calls that live outside
this repository (`matrix_dgesvd`, `matrix_dgesvx`, `enkf_linalg_lowrankE`,
`enkf_linalg_lowrankCinv`) are modelled as oracle function parameters;
theorems quantify over every possible output of those routines, and the
oracle for the two low-rank routines is taken as already applied to the
truncation setting.  The scalar `nsc = 1.0 / sqrt(ens_size - 1.0)` is
irrational, so it is carried as a symbolic parameter; theorems that depend
on its value take the hypothesis `nsc * nsc = (N - 1)⁻¹`, which is exactly
true of the value the code computes.
-/

open Matrix

namespace ies

/-- The inversion discriminator.  The C++ code stores the
`ies::config::inversion_type` enum, which is an integer; comparisons in
`ies_initX__` and `linalg_subspace_inversion` are plain integer comparisons,
so the mode is modelled as `ℤ` with the four named enum constants.
`IES_INVERSION_EXACT` has value 0. -/
def IES_INVERSION_EXACT : ℤ := 0

/-- Enum constant `IES_INVERSION_SUBSPACE_EXACT_R` (value 1). -/
def IES_INVERSION_SUBSPACE_EXACT_R : ℤ := 1

/-- Enum constant `IES_INVERSION_SUBSPACE_EE_R` (value 2). -/
def IES_INVERSION_SUBSPACE_EE_R : ℤ := 2

/-- Enum constant `IES_INVERSION_SUBSPACE_RE` (value 3). -/
def IES_INVERSION_SUBSPACE_RE : ℤ := 3

/-- Configuration `ies::config::config_type`.  The truncation is the
`std::variant<double, int>` of the source: `Sum.inl` is the double
(energy-fraction) alternative, `Sum.inr` the int (subspace-dimension)
alternative. -/
structure config_type where
  inversion : ℤ
  truncation : ℚ ⊕ ℤ
  max_steplength : ℚ
  min_steplength : ℚ
  dec_steplength : ℚ
  aaprojection : Bool
  logfile : Option String

/-- Module state `ies::data_type` as far as the dispatch-table accessors in
`ies_enkf.cpp` touch it: the configuration and the iteration counter.  The
matrix-valued members (W, E0, A0 and the masks) are handled explicitly in
the linear-algebra embedding below, which takes them as arguments. -/
structure data_type where
  config : config_type
  iteration_nr : ℤ

/-- Key string `ENKF_SUBSPACE_DIMENSION_KEY`. -/
def ENKF_SUBSPACE_DIMENSION_KEY : String := "ENKF_SUBSPACE_DIMENSION"

/-- Key string `ENKF_TRUNCATION_KEY`. -/
def ENKF_TRUNCATION_KEY : String := "ENKF_TRUNCATION"

/-- Key string `IES_MAX_STEPLENGTH_KEY`. -/
def IES_MAX_STEPLENGTH_KEY : String := "IES_MAX_STEPLENGTH"

/-- Key string `IES_MIN_STEPLENGTH_KEY`. -/
def IES_MIN_STEPLENGTH_KEY : String := "IES_MIN_STEPLENGTH"

/-- Key string `IES_DEC_STEPLENGTH_KEY`. -/
def IES_DEC_STEPLENGTH_KEY : String := "IES_DEC_STEPLENGTH"

/-- Key string `ITER_KEY`. -/
def ITER_KEY : String := "ITER"

/-- Key string `IES_DEBUG_KEY`. -/
def IES_DEBUG_KEY : String := "IES_DEBUG"

/-- Key string `IES_INVERSION_KEY`. -/
def IES_INVERSION_KEY : String := "IES_INVERSION"

/-- Key string `IES_LOGFILE_KEY`. -/
def IES_LOGFILE_KEY : String := "IES_LOGFILE"

/-- Key string `IES_AAPROJECTION_KEY`. -/
def IES_AAPROJECTION_KEY : String := "IES_AAPROJECTION"

/-- Modelled from the spec: `ies::config::set_truncation` is implemented in
`ies_config.cpp`, which is not among the given sources.  Per the spec
(config holds the truncation as a tagged value, and setting either key
replaces whichever alternative is currently stored), it stores the double
alternative. -/
def set_truncation (c : config_type) (value : ℚ) : config_type :=
  { c with truncation := Sum.inl value }

/-- Modelled from the spec: `ies::config::set_subspace_dimension`
(`ies_config.cpp`, not among the given sources) stores the int alternative
of the tagged truncation value, replacing whichever was set. -/
def set_subspace_dimension (c : config_type) (value : ℤ) : config_type :=
  { c with truncation := Sum.inr value }

/-- Modelled from the spec: `ies::config::get_truncation` (`ies_config.cpp`,
not among the given sources) returns the stored tagged truncation value. -/
def get_truncation (c : config_type) : ℚ ⊕ ℤ :=
  c.truncation

/-- Modelled from the spec: `ies::config::set_inversion` (`ies_config.cpp`,
not among the given sources) stores the inversion tag; the caller in
`set_int` static_casts the raw int onto the enum, which we keep as the
integer itself. -/
def set_inversion (c : config_type) (value : ℤ) : config_type :=
  { c with inversion := value }

/-- Modelled from the spec: config field setter from `ies_config.cpp` (not
among the given sources); spec section 4.B lists get/set for each field. -/
def set_max_steplength (c : config_type) (value : ℚ) : config_type :=
  { c with max_steplength := value }

/-- Modelled from the spec: config field setter from `ies_config.cpp` (not
among the given sources). -/
def set_min_steplength (c : config_type) (value : ℚ) : config_type :=
  { c with min_steplength := value }

/-- Modelled from the spec: config field setter from `ies_config.cpp` (not
among the given sources). -/
def set_dec_steplength (c : config_type) (value : ℚ) : config_type :=
  { c with dec_steplength := value }

/-- Modelled from the spec: config field setter from `ies_config.cpp` (not
among the given sources). -/
def set_aaprojection (c : config_type) (value : Bool) : config_type :=
  { c with aaprojection := value }

/-- Modelled from the spec: config field setter from `ies_config.cpp` (not
among the given sources). -/
def set_logfile (c : config_type) (value : String) : config_type :=
  { c with logfile := some value }

/-- `set_int` from the anonymous namespace of `ies_enkf.cpp`: recognizes
`ENKF_SUBSPACE_DIMENSION`, `ITER` and `IES_INVERSION`; returns the updated
state together with the `name_recognized` flag. -/
def set_int (d : data_type) (var_name : String) (value : ℤ) : data_type × Bool :=
  if var_name = ENKF_SUBSPACE_DIMENSION_KEY then
    ({ d with config := set_subspace_dimension d.config value }, true)
  else if var_name = ITER_KEY then
    ({ d with iteration_nr := value }, true)
  else if var_name = IES_INVERSION_KEY then
    ({ d with config := set_inversion d.config value }, true)
  else
    (d, false)

/-- `get_int` from the anonymous namespace of `ies_enkf.cpp`: returns the
iteration counter for `ITER`; for `ENKF_SUBSPACE_DIMENSION` returns the
stored int alternative of the truncation, or the sentinel -1 when the
double alternative is stored; returns the inversion tag for
`IES_INVERSION`; -1 for anything else. -/
def get_int (d : data_type) (var_name : String) : ℤ :=
  if var_name = ITER_KEY then
    d.iteration_nr
  else if var_name = ENKF_SUBSPACE_DIMENSION_KEY then
    match get_truncation d.config with
    | Sum.inr k => k
    | Sum.inl _ => -1
  else if var_name = IES_INVERSION_KEY then
    d.config.inversion
  else
    -1

/-- `set_string` from the anonymous namespace of `ies_enkf.cpp`. -/
def set_string (d : data_type) (var_name : String) (value : String) :
    data_type × Bool :=
  if var_name = IES_LOGFILE_KEY then
    ({ d with config := set_logfile d.config value }, true)
  else
    (d, false)

/-- `set_bool` from the anonymous namespace of `ies_enkf.cpp`:
`IES_AAPROJECTION` is stored; `IES_DEBUG` is recognized but ignored (the
code only logs a warning); anything else is not recognized. -/
def set_bool (d : data_type) (var_name : String) (value : Bool) :
    data_type × Bool :=
  if var_name = IES_AAPROJECTION_KEY then
    ({ d with config := set_aaprojection d.config value }, true)
  else if var_name = IES_DEBUG_KEY then
    (d, true)
  else
    (d, false)

/-- `get_bool` from the anonymous namespace of `ies_enkf.cpp`: only
`IES_AAPROJECTION` reads the configuration; every other name falls through
to `false`. -/
def get_bool (d : data_type) (var_name : String) : Bool :=
  if var_name = IES_AAPROJECTION_KEY then
    d.config.aaprojection
  else
    false

/-- `set_double` from the anonymous namespace of `ies_enkf.cpp`. -/
def set_double (d : data_type) (var_name : String) (value : ℚ) :
    data_type × Bool :=
  if var_name = ENKF_TRUNCATION_KEY then
    ({ d with config := set_truncation d.config value }, true)
  else if var_name = IES_MAX_STEPLENGTH_KEY then
    ({ d with config := set_max_steplength d.config value }, true)
  else if var_name = IES_MIN_STEPLENGTH_KEY then
    ({ d with config := set_min_steplength d.config value }, true)
  else if var_name = IES_DEC_STEPLENGTH_KEY then
    ({ d with config := set_dec_steplength d.config value }, true)
  else
    (d, false)

/-- `get_double` from the anonymous namespace of `ies_enkf.cpp`: for
`ENKF_TRUNCATION` returns the stored double alternative of the truncation,
or the sentinel -1 when the int alternative is stored; the three
step-length fields are returned directly; -1 for anything else. -/
def get_double (d : data_type) (var_name : String) : ℚ :=
  if var_name = ENKF_TRUNCATION_KEY then
    match get_truncation d.config with
    | Sum.inl f => f
    | Sum.inr _ => -1
  else if var_name = IES_MAX_STEPLENGTH_KEY then
    d.config.max_steplength
  else if var_name = IES_MIN_STEPLENGTH_KEY then
    d.config.min_steplength
  else if var_name = IES_DEC_STEPLENGTH_KEY then
    d.config.dec_steplength
  else
    -1

/-- `has_var` from the anonymous namespace of `ies_enkf.cpp`. -/
def has_var (var_name : String) : Bool :=
  if var_name = ITER_KEY then true
  else if var_name = IES_MAX_STEPLENGTH_KEY then true
  else if var_name = IES_MIN_STEPLENGTH_KEY then true
  else if var_name = IES_DEC_STEPLENGTH_KEY then true
  else if var_name = IES_INVERSION_KEY then true
  else if var_name = IES_LOGFILE_KEY then true
  else if var_name = IES_DEBUG_KEY then true
  else if var_name = IES_AAPROJECTION_KEY then true
  else if var_name = ENKF_TRUNCATION_KEY then true
  else if var_name = ENKF_SUBSPACE_DIMENSION_KEY then true
  else false

/-- `get_ptr` from the anonymous namespace of `ies_enkf.cpp`: returns the
configured logfile for `IES_LOGFILE` and NULL (`none`) otherwise. -/
def get_ptr (d : data_type) (var_name : String) : Option String :=
  if var_name = IES_LOGFILE_KEY then d.config.logfile else none

/-- Modelled from the spec: `ies::config::calculate_steplength` is
implemented in `ies_config.cpp`, which is not among the given sources.  The
spec gives the formula
`γ = γ_min + (γ_max − γ_min) · pow(2, −(iter − 1) / (decay − 1))`
with `iter` starting at 1; the exponent is real, so this definition lives
in ℝ (rational config fields are cast). -/
noncomputable def calculate_steplength (c : config_type) (iteration_nr : ℕ) : ℝ :=
  (c.min_steplength : ℝ) +
    ((c.max_steplength : ℝ) - (c.min_steplength : ℝ)) *
      (2 : ℝ) ^ (-(((iteration_nr : ℝ) - 1) / ((c.dec_steplength : ℝ) - 1)))

/-- `matrix_subtract_row_mean(M)`: subtract from each entry the mean of its
row (right multiplication by `I - 11ᵀ/n`). -/
def subtract_row_mean {r c : ℕ} (M : Matrix (Fin r) (Fin c) ℚ) :
    Matrix (Fin r) (Fin c) ℚ :=
  Matrix.of fun i j => M i j - (∑ k, M i k) / c

/-- The ascending list of indices at which a mask is true.  The C loops in
`alloc_active` and `linalg_store_active_W` walk the mask in ascending index
order keeping a counter of actives seen so far, which is exactly an
enumeration of this list. -/
def active_index_list {n : ℕ} (mask : Fin n → Bool) : List (Fin n) :=
  (List.finRange n).filter fun i => mask i

/-- `alloc_active(full_matrix, row_mask, column_mask)` (static helper in
`ies_enkf.cpp`): the dense active sub-matrix; entry (r, c) holds the full
matrix's entry at the r-th active row index and c-th active column index. -/
def alloc_active {rows cols : ℕ} (full_matrix : Matrix (Fin rows) (Fin cols) ℚ)
    (row_mask : Fin rows → Bool) (column_mask : Fin cols → Bool) :
    Matrix (Fin (active_index_list row_mask).length)
      (Fin (active_index_list column_mask).length) ℚ :=
  Matrix.of fun r c =>
    full_matrix ((active_index_list row_mask).get r)
      ((active_index_list column_mask).get c)

/-- The dense-active coordinate of an active full-grid index: its rank among
the active indices (the value of the running counter in the C loops when it
reaches this index). -/
def active_rank {n : ℕ} (mask : Fin n → Bool) (i : Fin n) (h : mask i = true) :
    Fin (active_index_list mask).length :=
  ⟨(active_index_list mask).indexOf i,
    List.indexOf_lt_length.2 (List.mem_filter.2 ⟨List.mem_finRange i, h⟩)⟩

/-- `ies::linalg_store_active_W(data, W0)`: zero `data->W` entirely
(`matrix_set(dataW, 0.0)`), then for every (iens, jens) with both mask bits
true copy the entry of W0 at the corresponding dense-active coordinates. -/
def linalg_store_active_W {n : ℕ} (ens_mask : Fin n → Bool)
    (W0 : Matrix (Fin (active_index_list ens_mask).length)
      (Fin (active_index_list ens_mask).length) ℚ) :
    Matrix (Fin n) (Fin n) ℚ :=
  Matrix.of fun iens jens =>
    if h : ens_mask iens = true ∧ ens_mask jens = true then
      W0 (active_rank ens_mask iens h.1) (active_rank ens_mask jens h.2)
    else 0

/-- Modelled from the spec: `enkf_linalg_genX3` lives in `enkf_linalg.cpp`,
which is not among the given sources; spec section 4.A specifies
`genX3(X3, X1, H, eig)` as `X3 ← X1 · diag(eig) · X1ᵀ · H`. -/
def enkf_linalg_genX3 {p r N : ℕ} (X1 : Matrix (Fin p) (Fin r) ℚ)
    (H : Matrix (Fin p) (Fin N) ℚ) (eig : Fin r → ℚ) :
    Matrix (Fin p) (Fin N) ℚ :=
  X1 * Matrix.diagonal eig * X1ᵀ * H

/-- `ies::linalg_solve_S(W0, Y, S)`: build
`Omega = ((W0 demeaned) · nsc)ᵀ + I` and solve `Omega · Sᵀ = Yᵀ`, returning
the solution transposed.  The dense solve `matrix_dgesvx` is LAPACK, modelled
as the oracle `dgesvx` (first argument the system matrix, second the right
hand side). -/
def linalg_solve_S {p N : ℕ}
    (dgesvx : Matrix (Fin N) (Fin N) ℚ → Matrix (Fin N) (Fin p) ℚ →
      Matrix (Fin N) (Fin p) ℚ)
    (W0 : Matrix (Fin N) (Fin N) ℚ) (Y : Matrix (Fin p) (Fin N) ℚ)
    (nsc : ℚ) : Matrix (Fin p) (Fin N) ℚ :=
  let Omega := (nsc • subtract_row_mean W0)ᵀ + 1
  (dgesvx Omega Yᵀ)ᵀ

/-- `ies::linalg_compute_AA_projection(A, Y)`: demean A, take its SVD right
factor VT (LAPACK `matrix_dgesvd`, modelled as the oracle `dgesvd_VT`),
form `AAi = VTᵀ · VT` and right-multiply Y by it. -/
def linalg_compute_AA_projection {state_size N p : ℕ}
    (dgesvd_VT : Matrix (Fin state_size) (Fin N) ℚ →
      Matrix (Fin state_size) (Fin N) ℚ)
    (A : Matrix (Fin state_size) (Fin N) ℚ) (Y : Matrix (Fin p) (Fin N) ℚ) :
    Matrix (Fin p) (Fin N) ℚ :=
  let Ai := subtract_row_mean A
  let VT := dgesvd_VT Ai
  let AAi := VTᵀ * VT
  Y * AAi

/-- `ies::linalg_subspace_inversion(W0, ies_inversion, E, R, S, H,
truncation, ies_steplength)`.  The three `enkf_linalg_lowrank*` routines are
LAPACK-backed externals, modelled as oracles returning the pair (X1, eig)
(the oracles are taken as already applied to the truncation setting).  The
branch structure and the scaling of their second argument follow the code:
`nsc • E` for SUBSPACE_RE, `(E·Eᵀ)/((N−1)·(N−1))` for SUBSPACE_EE_R and
`(nsc·nsc) • R` for SUBSPACE_EXACT_R, where `nsc = 1/sqrt(N−1)`.  When no
branch matches, X1 stays as allocated (zero) and the eig vector keeps its
`std::vector<double>` value initialization (zero).  The update is
`matrix_dgemm(W0, S, X3, true, false, γ, 1−γ)`, i.e.
`γ · Sᵀ·X3 + (1−γ) · W0`. -/
def linalg_subspace_inversion {p N r : ℕ}
    (lowrankE : Matrix (Fin p) (Fin N) ℚ → Matrix (Fin p) (Fin N) ℚ →
      Matrix (Fin p) (Fin r) ℚ × (Fin r → ℚ))
    (lowrankCinv : Matrix (Fin p) (Fin N) ℚ → Matrix (Fin p) (Fin p) ℚ →
      Matrix (Fin p) (Fin r) ℚ × (Fin r → ℚ))
    (ies_inversion : ℤ)
    (W0 : Matrix (Fin N) (Fin N) ℚ) (E : Matrix (Fin p) (Fin N) ℚ)
    (R : Matrix (Fin p) (Fin p) ℚ) (S H : Matrix (Fin p) (Fin N) ℚ)
    (ies_steplength nsc : ℚ) : Matrix (Fin N) (Fin N) ℚ :=
  let X1eig :=
    if ies_inversion = IES_INVERSION_SUBSPACE_RE then
      lowrankE S (nsc • E)
    else if ies_inversion = IES_INVERSION_SUBSPACE_EE_R then
      lowrankCinv S ((((N : ℚ) - 1) * ((N : ℚ) - 1))⁻¹ • (E * Eᵀ))
    else if ies_inversion = IES_INVERSION_SUBSPACE_EXACT_R then
      lowrankCinv S ((nsc * nsc) • R)
    else (0, fun _ => 0)
  let X3 := enkf_linalg_genX3 X1eig.1 H X1eig.2
  ies_steplength • (Sᵀ * X3) + (1 - ies_steplength) • W0

/-- The matrix `StS` built by `ies::linalg_exact_inversion`:
`matrix_diag_set_scalar(StS, 1.0)` followed by
`matrix_dgemm(StS, S, S, true, false, 1.0, 1.0)`, i.e. `I + Sᵀ·S`. -/
def exact_inversion_StS {p N : ℕ} (S : Matrix (Fin p) (Fin N) ℚ) :
    Matrix (Fin N) (Fin N) ℚ :=
  1 + Sᵀ * S

/-- `ies::linalg_exact_inversion(W0, ies_inversion, S, H, ies_steplength)`.
The SVD of `StS` (LAPACK `matrix_dgesvd` with DGESVD_ALL) is modelled as the
oracle `dgesvd_Z` returning the pair (Z, eig).  The loop replaces `eig[i]`
by `1/eig[i]` and scales row i of `Zᵀ·Sᵀ·H` by it; the update is
`matrix_dgemm(W0, Z, ZtStH, false, false, γ, 1−γ)`. -/
def linalg_exact_inversion {p N : ℕ}
    (dgesvd_Z : Matrix (Fin N) (Fin N) ℚ →
      Matrix (Fin N) (Fin N) ℚ × (Fin N → ℚ))
    (W0 : Matrix (Fin N) (Fin N) ℚ) (S H : Matrix (Fin p) (Fin N) ℚ)
    (ies_steplength : ℚ) : Matrix (Fin N) (Fin N) ℚ :=
  let Zeig := dgesvd_Z (exact_inversion_StS S)
  let StH := Sᵀ * H
  let ZtStH := Zeig.1ᵀ * StH
  let scaledZtStH := Matrix.of fun i j => (Zeig.2 i)⁻¹ * ZtStH i j
  ies_steplength • (Zeig.1 * scaledZtStH) + (1 - ies_steplength) • W0

/-- `ies_initX__` from `ies_enkf.cpp`: demean and scale Y, optionally apply
the AA projection, solve for S, form the innovation `H = S·W0 + D`, update
W0 through the selected inversion, and return the transform
`X = I + nsc · W0` together with the updated W0 (the matrix the code hands
to `linalg_store_active_W`).  The active-W extraction
`W0 = ies::alloc_activeW(data)` is taken as the argument `W0`, and
`nsc = 1/sqrt(ens_size − 1)` as the symbolic argument `nsc`. -/
def ies_initX__ {state_size p N r : ℕ}
    (dgesvd_VT : Matrix (Fin state_size) (Fin N) ℚ →
      Matrix (Fin state_size) (Fin N) ℚ)
    (dgesvx : Matrix (Fin N) (Fin N) ℚ → Matrix (Fin N) (Fin p) ℚ →
      Matrix (Fin N) (Fin p) ℚ)
    (dgesvd_Z : Matrix (Fin N) (Fin N) ℚ →
      Matrix (Fin N) (Fin N) ℚ × (Fin N → ℚ))
    (lowrankE : Matrix (Fin p) (Fin N) ℚ → Matrix (Fin p) (Fin N) ℚ →
      Matrix (Fin p) (Fin r) ℚ × (Fin r → ℚ))
    (lowrankCinv : Matrix (Fin p) (Fin N) ℚ → Matrix (Fin p) (Fin p) ℚ →
      Matrix (Fin p) (Fin r) ℚ × (Fin r → ℚ))
    (A : Option (Matrix (Fin state_size) (Fin N) ℚ))
    (Y0 : Matrix (Fin p) (Fin N) ℚ)
    (R : Matrix (Fin p) (Fin p) ℚ)
    (E : Matrix (Fin p) (Fin N) ℚ)
    (D : Matrix (Fin p) (Fin N) ℚ)
    (ies_inversion : ℤ)
    (use_aa_projection : Bool)
    (W0 : Matrix (Fin N) (Fin N) ℚ)
    (ies_steplength nsc : ℚ) :
    Matrix (Fin N) (Fin N) ℚ × Matrix (Fin N) (Fin N) ℚ :=
  let Y1 := nsc • subtract_row_mean Y0
  let Y := match A with
    | some Amat =>
        if use_aa_projection = true ∧ (state_size : ℤ) ≤ (N : ℤ) - 1 then
          linalg_compute_AA_projection dgesvd_VT Amat Y1
        else Y1
    | none => Y1
  let S := linalg_solve_S dgesvx W0 Y nsc
  let H := S * W0 + D
  let W0upd :=
    if ies_inversion ≠ IES_INVERSION_EXACT then
      linalg_subspace_inversion lowrankE lowrankCinv ies_inversion W0 E R S H
        ies_steplength nsc
    else
      linalg_exact_inversion dgesvd_Z W0 S H ies_steplength
  let X := nsc • W0upd + 1
  (X, W0upd)

/-- The cost function accumulated at the end of `ies_initX__` when `costf`
is requested: `(1/N) · Σ_i (‖W col i‖² + ‖D col i‖²)` against the
pre-update W. -/
def ies_initX_costf {p N : ℕ} (W : Matrix (Fin N) (Fin N) ℚ)
    (D : Matrix (Fin p) (Fin N) ℚ) : ℚ :=
  (∑ i, ((∑ j, W j i * W j i) + ∑ j, D j i * D j i)) / N

/-- The message `ies::updateA` hands to `logger->info` after the
`ies_initX__` call, with the two format holes filled with the rendered
iteration number and cost function value.  The format string in the code is
"IES", two spaces, "iter:", the first hole, " cost function: ", the second
hole. -/
def updateA_log_message (iteration_nr cost_function : String) : String :=
  "IES  iter:" ++ iteration_nr ++ " cost function: " ++ cost_function

/-- The log records emitted by one `ies::updateA` call: the single
`logger->info` message (the only logging statement in `updateA`). -/
def updateA_log_records (iteration_nr cost_function : String) : List String :=
  [updateA_log_message iteration_nr cost_function]

/-- The log record format as the spec's words state it (for comparison with
`updateA_log_message`): "IES iter:<k> cost function: <f>" with a single
space after "IES". -/
def spec_log_message (iteration_nr cost_function : String) : String :=
  "IES iter:" ++ iteration_nr ++ " cost function: " ++ cost_function

/-- The SUBSPACE_EXACT_R update as the spec's words describe it (for
comparison with `linalg_subspace_inversion`): "scale R by 1/(N−1)²; low-rank
inverse via lowrankCinv(S, scaledR, X1, eig, trunc); apply
W ← (1−γ)·W + γ·Sᵀ·(X1·diag(eig)·X1ᵀ·H)". -/
def spec_subspace_inversion_exactR {p N r : ℕ}
    (lowrankCinv : Matrix (Fin p) (Fin N) ℚ → Matrix (Fin p) (Fin p) ℚ →
      Matrix (Fin p) (Fin r) ℚ × (Fin r → ℚ))
    (W0 : Matrix (Fin N) (Fin N) ℚ)
    (R : Matrix (Fin p) (Fin p) ℚ) (S H : Matrix (Fin p) (Fin N) ℚ)
    (ies_steplength : ℚ) : Matrix (Fin N) (Fin N) ℚ :=
  let X1eig := lowrankCinv S (((((N : ℚ) - 1) * ((N : ℚ) - 1))⁻¹) • R)
  let X3 := enkf_linalg_genX3 X1eig.1 H X1eig.2
  ies_steplength • (Sᵀ * X3) + (1 - ies_steplength) • W0

/-- Modelled from the spec: the signature of the stateless `initX`
convenience operation as the spec lists it in the dispatch table,
`initX(cfg, Y, R, E, D, X)` (the slot's declared type is in
`analysis_table.hpp`, which is not among the given sources).  The LAPACK
oracles a concrete implementation would need are part of the signature. -/
def stateless_initX_sig : Type :=
  (p N r : ℕ) →
    (Matrix (Fin N) (Fin N) ℚ → Matrix (Fin N) (Fin p) ℚ →
      Matrix (Fin N) (Fin p) ℚ) →
    (Matrix (Fin N) (Fin N) ℚ → Matrix (Fin N) (Fin N) ℚ × (Fin N → ℚ)) →
    (Matrix (Fin p) (Fin N) ℚ → Matrix (Fin p) (Fin N) ℚ →
      Matrix (Fin p) (Fin r) ℚ × (Fin r → ℚ)) →
    (Matrix (Fin p) (Fin N) ℚ → Matrix (Fin p) (Fin p) ℚ →
      Matrix (Fin p) (Fin r) ℚ × (Fin r → ℚ)) →
    config_type → Matrix (Fin p) (Fin N) ℚ → Matrix (Fin p) (Fin p) ℚ →
    Matrix (Fin p) (Fin N) ℚ → Matrix (Fin p) (Fin N) ℚ →
    Matrix (Fin N) (Fin N) ℚ

/-- `ies::initX` (the stateless convenience function defined in
`ies_enkf.cpp`): allocate fresh state with all-true masks and a zero W, so
the active W0 handed to `ies_initX__` is the zero matrix, and call
`ies_initX__` with no A, no AA projection, step length 1 and iteration 1. -/
def initX : stateless_initX_sig :=
  fun _p _N _r dgesvx dgesvd_Z lowrankE lowrankCinv ies_config Y0 R E D =>
    (ies_initX__ (fun M => M) dgesvx dgesvd_Z lowrankE lowrankCinv
      (none : Option (Matrix (Fin 0) _ ℚ)) Y0 R E D ies_config.inversion
      false 0 1 1).1

/-- The `analysis_table_type` dispatch record (declared in
`analysis_table.hpp`, which is not among the given sources; its slots are
modelled from the spec's listing of the table).  The driver-facing callbacks
whose bodies the claims do not inspect (`updateA`, `init_update`,
`complete_update`, `freef`, `alloc`, `get_options`) are modelled as presence
flags (true = non-NULL function pointer); the configuration plumbing slots
carry the embedded functions; `initX` is an optional function of the
stateless signature. -/
structure analysis_table_type where
  name : String
  updateA : Bool
  initX : Option stateless_initX_sig
  init_update : Bool
  complete_update : Bool
  freef : Bool
  alloc : Bool
  set_int : data_type → String → ℤ → data_type × Bool
  set_double : data_type → String → ℚ → data_type × Bool
  set_bool : data_type → String → Bool → data_type × Bool
  set_string : data_type → String → String → data_type × Bool
  get_options : Bool
  has_var : String → Bool
  get_int : data_type → String → ℤ
  get_double : data_type → String → ℚ
  get_bool : data_type → String → Bool
  get_ptr : data_type → String → Option String

/-- The exported table `ies::IES_ENKF` from the bottom of `ies_enkf.cpp`,
slot by slot: `.updateA = updateA`, `.initX = NULL`,
`.init_update = init_update`, `.complete_update = NULL`,
`.freef = data_free`, `.alloc = data_alloc`, and the anonymous-namespace
accessors. -/
def IES_ENKF : analysis_table_type where
  name := "IES_ENKF"
  updateA := true
  initX := none
  init_update := true
  complete_update := false
  freef := true
  alloc := true
  set_int := ies.set_int
  set_double := ies.set_double
  set_bool := ies.set_bool
  set_string := ies.set_string
  get_options := true
  has_var := ies.has_var
  get_int := ies.get_int
  get_double := ies.get_double
  get_bool := ies.get_bool
  get_ptr := ies.get_ptr

end ies

/-! Helper lemmas shared by several claim theorems. -/

theorem active_index_list_get_active_rank {n : ℕ} (mask : Fin n → Bool)
    (i : Fin n) (h : mask i = true) :
    (ies.active_index_list mask).get (ies.active_rank mask i h) = i :=
  List.indexOf_get _

theorem alloc_active_zero {rows cols : ℕ} (row_mask : Fin rows → Bool)
    (column_mask : Fin cols → Bool) :
    ies.alloc_active (0 : Matrix (Fin rows) (Fin cols) ℚ) row_mask column_mask
      = 0 := by
  ext r c
  simp [ies.alloc_active]

theorem subspace_inversion_zero_W_zero_H {p N r : ℕ}
    (lowrankE : Matrix (Fin p) (Fin N) ℚ → Matrix (Fin p) (Fin N) ℚ →
      Matrix (Fin p) (Fin r) ℚ × (Fin r → ℚ))
    (lowrankCinv : Matrix (Fin p) (Fin N) ℚ → Matrix (Fin p) (Fin p) ℚ →
      Matrix (Fin p) (Fin r) ℚ × (Fin r → ℚ))
    (ies_inversion : ℤ) (E : Matrix (Fin p) (Fin N) ℚ)
    (R : Matrix (Fin p) (Fin p) ℚ) (S : Matrix (Fin p) (Fin N) ℚ)
    (ies_steplength nsc : ℚ) :
    ies.linalg_subspace_inversion lowrankE lowrankCinv ies_inversion 0 E R S 0
      ies_steplength nsc = 0 := by
  simp [ies.linalg_subspace_inversion, ies.enkf_linalg_genX3, Matrix.mul_zero]

theorem exact_inversion_zero_W_zero_H {p N : ℕ}
    (dgesvd_Z : Matrix (Fin N) (Fin N) ℚ →
      Matrix (Fin N) (Fin N) ℚ × (Fin N → ℚ))
    (S : Matrix (Fin p) (Fin N) ℚ) (ies_steplength : ℚ) :
    ies.linalg_exact_inversion dgesvd_Z 0 S 0 ies_steplength = 0 := by
  have h0 : (Matrix.of fun (_ : Fin N) (_ : Fin N) => (0 : ℚ)) =
      (0 : Matrix (Fin N) (Fin N) ℚ) := by
    ext i j
    simp
  simp [ies.linalg_exact_inversion, h0]

/-! The claim theorems. -/

/-- C10: for every state object `get_bool` returns false for every variable
name other than IES_AAPROJECTION — including the recognized key IES_DEBUG
and names unknown to the module — without signalling any error (it is a
total function whose only non-default branch is the IES_AAPROJECTION
lookup). -/
theorem get_bool_false_for_other_names (d : ies.data_type) (var_name : String)
    (h : var_name ≠ ies.IES_AAPROJECTION_KEY) :
    ies.get_bool d var_name = false := by
  simp [ies.get_bool, h]

/-- Witness for C10 at the recognized key IES_DEBUG on a concrete state. -/
theorem get_bool_false_for_other_names_witness :
    "IES_DEBUG" ≠ ies.IES_AAPROJECTION_KEY ∧
      ies.get_bool ⟨⟨0, Sum.inl (98/100), 6/10, 3/10, 5/2, true, none⟩, 0⟩
        "IES_DEBUG" = false :=
  ⟨by decide, get_bool_false_for_other_names _ _ (by decide)⟩

/-- C7: the truncation is a tagged variant: after `set_int` stores an
integer k under ENKF_SUBSPACE_DIMENSION, `get_int ENKF_SUBSPACE_DIMENSION`
returns k while `get_double ENKF_TRUNCATION` returns the sentinel -1;
symmetrically, after `set_double` stores a fraction under ENKF_TRUNCATION,
`get_int ENKF_SUBSPACE_DIMENSION` returns -1. -/
theorem truncation_tagged_variant (d : ies.data_type) (k : ℤ) (f : ℚ) :
    ies.get_int (ies.set_int d ies.ENKF_SUBSPACE_DIMENSION_KEY k).1
        ies.ENKF_SUBSPACE_DIMENSION_KEY = k ∧
    ies.get_double (ies.set_int d ies.ENKF_SUBSPACE_DIMENSION_KEY k).1
        ies.ENKF_TRUNCATION_KEY = -1 ∧
    ies.get_int (ies.set_double d ies.ENKF_TRUNCATION_KEY f).1
        ies.ENKF_SUBSPACE_DIMENSION_KEY = -1 :=
  ⟨rfl, rfl, rfl⟩

/-- C2 counterexample: the exported dispatch table IES_ENKF does NOT provide
a callable stateless initX operation — the initX slot of the table is NULL
(`none`), so the claim fails on the table as exported. -/
theorem IES_ENKF_initX_slot_is_null : ies.IES_ENKF.initX.isSome = false :=
  rfl

/-- C2 amended: the table named IES_ENKF leaves its initX slot NULL; the
stateless convenience function `ies::initX` (embedded as `ies.initX`) exists
in the module but is not exported through the table. -/
theorem IES_ENKF_table_shape :
    ies.IES_ENKF.name = "IES_ENKF" ∧ ies.IES_ENKF.initX = none ∧
      ies.IES_ENKF.updateA = true :=
  ⟨rfl, rfl, rfl⟩

/-- C8 counterexample: the message `updateA` logs does not have the form
"IES iter:<k> cost function: <f>" stated by the spec — at iteration 1 with
cost 0.5 the code's record has two spaces after "IES" while the spec's form
has one. -/
theorem updateA_log_message_not_spec_format :
    ies.updateA_log_message "1" "0.5" ≠ ies.spec_log_message "1" "0.5" := by
  decide

/-- C8 amended: after every updateA call exactly one text record is
written, of the form "IES  iter:<k> cost function: <f>" (two spaces after
"IES"), with k the iteration number and f the cost function value. -/
theorem updateA_log_record_format (k f : String) :
    ies.updateA_log_records k f =
      ["IES  iter:" ++ k ++ " cost function: " ++ f] ∧
    (ies.updateA_log_records k f).length = 1 :=
  ⟨rfl, rfl⟩

/-- C4: for every stored W and ens_mask, extracting the active sub-matrix
with `alloc_active(W, ens_mask, ens_mask)` and writing it back with
`linalg_store_active_W` leaves every entry at an (active, active) index
pair unchanged and leaves every other entry exactly zero. -/
theorem store_active_W_roundtrip {n : ℕ} (W : Matrix (Fin n) (Fin n) ℚ)
    (ens_mask : Fin n → Bool) (i j : Fin n) :
    (ens_mask i = true → ens_mask j = true →
      ies.linalg_store_active_W ens_mask
        (ies.alloc_active W ens_mask ens_mask) i j = W i j) ∧
    (¬(ens_mask i = true ∧ ens_mask j = true) →
      ies.linalg_store_active_W ens_mask
        (ies.alloc_active W ens_mask ens_mask) i j = 0) := by
  constructor
  · intro hi hj
    show dite _ _ _ = _
    rw [dif_pos ⟨hi, hj⟩]
    show W _ _ = W i j
    rw [active_index_list_get_active_rank, active_index_list_get_active_rank]
  · intro h
    show dite _ _ _ = _
    rw [dif_neg h]

/-- Witness for C4 on a concrete 2x2 matrix with mask (true, false): the
(0,0) entry survives the round trip and the inactive (0,1) entry is zeroed. -/
theorem store_active_W_roundtrip_witness :
    ies.linalg_store_active_W ![true, false]
        (ies.alloc_active !![(1 : ℚ), 2; 3, 4] ![true, false] ![true, false])
        0 0 = 1 ∧
    ies.linalg_store_active_W ![true, false]
        (ies.alloc_active !![(1 : ℚ), 2; 3, 4] ![true, false] ![true, false])
        0 1 = 0 := by
  constructor
  · have h := (store_active_W_roundtrip !![(1 : ℚ), 2; 3, 4] ![true, false]
      0 0).1 rfl rfl
    rw [h]
    norm_num
  · exact (store_active_W_roundtrip !![(1 : ℚ), 2; 3, 4] ![true, false]
      0 1).2 (by simp)

/-- C5: in inversion mode EXACT, for every W0, S, H and step length γ,
`linalg_exact_inversion` forms StS = I + Sᵀ·S, hands it to the SVD
(StS = Z·Λ·Zᵀ), scales row i of Zᵀ·Sᵀ·H by 1/Λ_ii, and updates W0 to
(1−γ)·W0 + γ·Z·(Λ⁻¹·Zᵀ·Sᵀ·H), for every SVD output (Z, Λ). -/
theorem exact_inversion_update_formula {p N : ℕ}
    (dgesvd_Z : Matrix (Fin N) (Fin N) ℚ →
      Matrix (Fin N) (Fin N) ℚ × (Fin N → ℚ))
    (W0 : Matrix (Fin N) (Fin N) ℚ) (S H : Matrix (Fin p) (Fin N) ℚ)
    (γ : ℚ) :
    ies.linalg_exact_inversion dgesvd_Z W0 S H γ =
      (1 - γ) • W0 +
        γ • ((dgesvd_Z (ies.exact_inversion_StS S)).1 *
          (Matrix.diagonal
              (fun i => ((dgesvd_Z (ies.exact_inversion_StS S)).2 i)⁻¹) *
            ((dgesvd_Z (ies.exact_inversion_StS S)).1ᵀ * (Sᵀ * H)))) := by
  have hdiag : (Matrix.of fun i j =>
      ((dgesvd_Z (ies.exact_inversion_StS S)).2 i)⁻¹ *
        ((dgesvd_Z (ies.exact_inversion_StS S)).1ᵀ * (Sᵀ * H)) i j) =
      Matrix.diagonal
          (fun i => ((dgesvd_Z (ies.exact_inversion_StS S)).2 i)⁻¹) *
        ((dgesvd_Z (ies.exact_inversion_StS S)).1ᵀ * (Sᵀ * H)) := by
    ext i j
    rw [Matrix.diagonal_mul]
    rfl
  show γ • ((dgesvd_Z (ies.exact_inversion_StS S)).1 *
      Matrix.of fun i j =>
        ((dgesvd_Z (ies.exact_inversion_StS S)).2 i)⁻¹ *
          ((dgesvd_Z (ies.exact_inversion_StS S)).1ᵀ * (Sᵀ * H)) i j) +
    (1 - γ) • W0 = _
  rw [hdiag, add_comm]

/-- C1 counterexample: at ensemble size N = 5 (where the code's
`nsc = 1/sqrt(N−1)` is exactly 1/2) the SUBSPACE_EXACT_R branch of
`linalg_subspace_inversion` does not behave as the spec's "scale R by
1/(N−1)²" description (`spec_subspace_inversion_exactR`): with the
low-rank oracle that returns its C argument as X1 and unit eigenvalues,
the two updates differ. -/
theorem subspace_exactR_scaling_counterexample :
    ies.linalg_subspace_inversion
        (fun _ _ => ((0 : Matrix (Fin 1) (Fin 1) ℚ), fun _ => 0))
        (fun _ C => (C, fun _ => 1))
        ies.IES_INVERSION_SUBSPACE_EXACT_R
        (0 : Matrix (Fin 5) (Fin 5) ℚ) 0 (1 : Matrix (Fin 1) (Fin 1) ℚ)
        (Matrix.of fun (_ : Fin 1) (_ : Fin 5) => (1 : ℚ))
        (Matrix.of fun (_ : Fin 1) (_ : Fin 5) => (1 : ℚ)) 1 (1 / 2) ≠
      ies.spec_subspace_inversion_exactR
        (fun _ C => (C, fun _ => 1))
        (0 : Matrix (Fin 5) (Fin 5) ℚ) (1 : Matrix (Fin 1) (Fin 1) ℚ)
        (Matrix.of fun (_ : Fin 1) (_ : Fin 5) => (1 : ℚ))
        (Matrix.of fun (_ : Fin 1) (_ : Fin 5) => (1 : ℚ)) 1 := by
  intro h
  have h00 := congrFun (congrFun h 0) 0
  simp [ies.linalg_subspace_inversion, ies.spec_subspace_inversion_exactR,
    ies.enkf_linalg_genX3, ies.IES_INVERSION_SUBSPACE_EXACT_R,
    ies.IES_INVERSION_SUBSPACE_RE, ies.IES_INVERSION_SUBSPACE_EE_R,
    Matrix.mul_apply, Matrix.smul_apply, Matrix.add_apply,
    Matrix.transpose_apply, Matrix.diagonal_apply, Fin.sum_univ_succ] at h00
  norm_num at h00

/-- C1 amended: in inversion mode SUBSPACE_EXACT_R, R is scaled by
`nsc·nsc = 1/(N−1)` (not 1/(N−1)²) before being passed to `lowrankCinv`:
under the code's value of nsc the update equals the one obtained by handing
`lowrankCinv` the pair (S, (N−1)⁻¹ • R). -/
theorem subspace_exactR_scales_R_by_inv_Nsub1 {p N r : ℕ}
    (lowrankE : Matrix (Fin p) (Fin N) ℚ → Matrix (Fin p) (Fin N) ℚ →
      Matrix (Fin p) (Fin r) ℚ × (Fin r → ℚ))
    (lowrankCinv : Matrix (Fin p) (Fin N) ℚ → Matrix (Fin p) (Fin p) ℚ →
      Matrix (Fin p) (Fin r) ℚ × (Fin r → ℚ))
    (W0 : Matrix (Fin N) (Fin N) ℚ) (E : Matrix (Fin p) (Fin N) ℚ)
    (R : Matrix (Fin p) (Fin p) ℚ) (S H : Matrix (Fin p) (Fin N) ℚ)
    (γ nsc : ℚ) (hnsc : nsc * nsc = ((N : ℚ) - 1)⁻¹) :
    ies.linalg_subspace_inversion lowrankE lowrankCinv
        ies.IES_INVERSION_SUBSPACE_EXACT_R W0 E R S H γ nsc =
      γ • (Sᵀ * ies.enkf_linalg_genX3
          (lowrankCinv S (((N : ℚ) - 1)⁻¹ • R)).1 H
          (lowrankCinv S (((N : ℚ) - 1)⁻¹ • R)).2) +
        (1 - γ) • W0 := by
  rw [← hnsc]
  simp only [ies.linalg_subspace_inversion, ies.IES_INVERSION_SUBSPACE_EXACT_R,
    ies.IES_INVERSION_SUBSPACE_RE, ies.IES_INVERSION_SUBSPACE_EE_R]
  norm_num

/-- Witness for C1 (amended) at N = 5, nsc = 1/2 with concrete zero
matrices and a constant low-rank oracle. -/
theorem subspace_exactR_scales_R_witness :
    (1 / 2 : ℚ) * (1 / 2) = ((5 : ℚ) - 1)⁻¹ ∧
      ies.linalg_subspace_inversion
          (fun _ _ => ((0 : Matrix (Fin 1) (Fin 1) ℚ), fun _ => 0))
          (fun _ C => (C, fun _ => 1))
          ies.IES_INVERSION_SUBSPACE_EXACT_R
          (0 : Matrix (Fin 5) (Fin 5) ℚ) 0 (1 : Matrix (Fin 1) (Fin 1) ℚ)
          (Matrix.of fun (_ : Fin 1) (_ : Fin 5) => (1 : ℚ))
          (Matrix.of fun (_ : Fin 1) (_ : Fin 5) => (1 : ℚ)) 1 (1 / 2) =
        (1 : ℚ) • ((Matrix.of fun (_ : Fin 1) (_ : Fin 5) => (1 : ℚ))ᵀ *
            ies.enkf_linalg_genX3
              ((fun (_ : Matrix (Fin 1) (Fin 5) ℚ)
                  (C : Matrix (Fin 1) (Fin 1) ℚ) =>
                    (C, fun (_ : Fin 1) => (1 : ℚ)))
                (Matrix.of fun (_ : Fin 1) (_ : Fin 5) => (1 : ℚ))
                (((5 : ℚ) - 1)⁻¹ • (1 : Matrix (Fin 1) (Fin 1) ℚ))).1
              (Matrix.of fun (_ : Fin 1) (_ : Fin 5) => (1 : ℚ))
              ((fun (_ : Matrix (Fin 1) (Fin 5) ℚ)
                  (C : Matrix (Fin 1) (Fin 1) ℚ) =>
                    (C, fun (_ : Fin 1) => (1 : ℚ)))
                (Matrix.of fun (_ : Fin 1) (_ : Fin 5) => (1 : ℚ))
                (((5 : ℚ) - 1)⁻¹ • (1 : Matrix (Fin 1) (Fin 1) ℚ))).2) +
          ((1 : ℚ) - 1) • (0 : Matrix (Fin 5) (Fin 5) ℚ) :=
  ⟨by norm_num,
    subspace_exactR_scales_R_by_inv_Nsub1 _ _ _ _ _ _ _ _ _ (by norm_num)⟩

/-- C3: for every inversion mode, step length, mask and LAPACK oracle
outputs, if the input D is the zero matrix and the stored coefficient
matrix W is zero at the start of the iteration, then the X matrix computed
by `ies_initX__` (whose active W0 input is
`alloc_active(W, ens_mask, ens_mask)`) is the identity. -/
theorem initX_identity_on_no_innovation {state_size p n r : ℕ}
    (ens_mask : Fin n → Bool)
    (dgesvd_VT : Matrix (Fin state_size)
        (Fin (ies.active_index_list ens_mask).length) ℚ →
      Matrix (Fin state_size) (Fin (ies.active_index_list ens_mask).length) ℚ)
    (dgesvx : Matrix (Fin (ies.active_index_list ens_mask).length)
        (Fin (ies.active_index_list ens_mask).length) ℚ →
      Matrix (Fin (ies.active_index_list ens_mask).length) (Fin p) ℚ →
      Matrix (Fin (ies.active_index_list ens_mask).length) (Fin p) ℚ)
    (dgesvd_Z : Matrix (Fin (ies.active_index_list ens_mask).length)
        (Fin (ies.active_index_list ens_mask).length) ℚ →
      Matrix (Fin (ies.active_index_list ens_mask).length)
          (Fin (ies.active_index_list ens_mask).length) ℚ ×
        (Fin (ies.active_index_list ens_mask).length → ℚ))
    (lowrankE : Matrix (Fin p) (Fin (ies.active_index_list ens_mask).length) ℚ →
      Matrix (Fin p) (Fin (ies.active_index_list ens_mask).length) ℚ →
      Matrix (Fin p) (Fin r) ℚ × (Fin r → ℚ))
    (lowrankCinv :
      Matrix (Fin p) (Fin (ies.active_index_list ens_mask).length) ℚ →
      Matrix (Fin p) (Fin p) ℚ →
      Matrix (Fin p) (Fin r) ℚ × (Fin r → ℚ))
    (A : Option (Matrix (Fin state_size)
      (Fin (ies.active_index_list ens_mask).length) ℚ))
    (Y0 : Matrix (Fin p) (Fin (ies.active_index_list ens_mask).length) ℚ)
    (R : Matrix (Fin p) (Fin p) ℚ)
    (E : Matrix (Fin p) (Fin (ies.active_index_list ens_mask).length) ℚ)
    (D : Matrix (Fin p) (Fin (ies.active_index_list ens_mask).length) ℚ)
    (W : Matrix (Fin n) (Fin n) ℚ)
    (ies_inversion : ℤ) (use_aa_projection : Bool) (γ nsc : ℚ)
    (hD : D = 0) (hW : W = 0) :
    (ies.ies_initX__ dgesvd_VT dgesvx dgesvd_Z lowrankE lowrankCinv A Y0 R E D
        ies_inversion use_aa_projection
        (ies.alloc_active W ens_mask ens_mask) γ nsc).1 = 1 := by
  subst hD hW
  rw [alloc_active_zero]
  simp only [ies.ies_initX__, Matrix.mul_zero, add_zero]
  by_cases hinv : ies_inversion ≠ ies.IES_INVERSION_EXACT
  · rw [if_pos hinv, subspace_inversion_zero_W_zero_H, smul_zero, zero_add]
  · rw [if_neg hinv, exact_inversion_zero_W_zero_H, smul_zero, zero_add]

/-- Witness for C3 with a single active realization, zero inputs, the EXACT
mode, step length 1 and trivial oracles. -/
theorem initX_identity_witness :
    (0 : Matrix (Fin 1) (Fin (ies.active_index_list ![true]).length) ℚ) = 0 ∧
      (0 : Matrix (Fin 1) (Fin 1) ℚ) = 0 ∧
      (ies.ies_initX__ (fun M => M) (fun _ B => B) (fun M => (M, fun _ => 1))
          (fun _ _ => ((0 : Matrix (Fin 1) (Fin 1) ℚ), fun _ => 0))
          (fun _ _ => ((0 : Matrix (Fin 1) (Fin 1) ℚ), fun _ => 0))
          (none : Option (Matrix (Fin 1)
            (Fin (ies.active_index_list ![true]).length) ℚ))
          0 0 0
          (0 : Matrix (Fin 1) (Fin (ies.active_index_list ![true]).length) ℚ)
          ies.IES_INVERSION_EXACT false
          (ies.alloc_active (0 : Matrix (Fin 1) (Fin 1) ℚ) ![true] ![true])
          1 1).1 = 1 :=
  ⟨rfl, rfl,
    initX_identity_on_no_innovation ![true] _ _ _ _ _ _ _ _ _ _ _ _ _ _ _
      rfl rfl⟩

/-- C9: the reciprocal loop in `linalg_exact_inversion` never divides by
zero: `StS = I + Sᵀ·S` is symmetric, and for every factorization
`StS = Z·diag(eig)·Zᵀ` with orthonormal columns (`Zᵀ·Z = I`) — the shape of
the SVD output for this symmetric positive-definite matrix — every
eigenvalue satisfies `eig i ≥ 1`, hence `eig i ≠ 0`. -/
theorem exact_inversion_StS_eig_ge_one {p N : ℕ}
    (S : Matrix (Fin p) (Fin N) ℚ) (Z : Matrix (Fin N) (Fin N) ℚ)
    (eig : Fin N → ℚ) (horth : Zᵀ * Z = 1)
    (hfact : ies.exact_inversion_StS S = Z * Matrix.diagonal eig * Zᵀ) :
    (ies.exact_inversion_StS S)ᵀ = ies.exact_inversion_StS S ∧
      ∀ i, 1 ≤ eig i ∧ eig i ≠ 0 := by
  constructor
  · simp [ies.exact_inversion_StS, Matrix.transpose_add, Matrix.transpose_mul,
      Matrix.mul_assoc]
  intro i
  have hAZ : ies.exact_inversion_StS S * Z = Z * Matrix.diagonal eig := by
    rw [hfact, Matrix.mul_assoc (Z * Matrix.diagonal eig) Zᵀ Z, horth,
      Matrix.mul_one]
  set v : Fin N → ℚ := fun k => Z k i with hv
  have hmv : (ies.exact_inversion_StS S) *ᵥ v = fun k => Z k i * eig i := by
    funext k
    have h1 : ((ies.exact_inversion_StS S) *ᵥ v) k =
        (ies.exact_inversion_StS S * Z) k i := by
      rw [Matrix.mul_apply]
      rfl
    rw [h1, hAZ, Matrix.mul_diagonal]
  have hvv : v ⬝ᵥ v = 1 := by
    have h2 := congrFun (congrFun horth i) i
    simpa [Matrix.mul_apply, Matrix.one_apply, Matrix.dotProduct] using h2
  have hquad : v ⬝ᵥ ((ies.exact_inversion_StS S) *ᵥ v) = eig i := by
    rw [hmv]
    calc (v ⬝ᵥ fun k => Z k i * eig i) = (v ⬝ᵥ v) * eig i := by
          simp [Matrix.dotProduct, Finset.sum_mul, mul_assoc]
      _ = eig i := by rw [hvv, one_mul]
  have hsplit : v ⬝ᵥ ((ies.exact_inversion_StS S) *ᵥ v) =
      v ⬝ᵥ v + (S *ᵥ v) ⬝ᵥ (S *ᵥ v) := by
    rw [ies.exact_inversion_StS, Matrix.add_mulVec, Matrix.one_mulVec,
      Matrix.dotProduct_add]
    congr 1
    rw [← Matrix.mulVec_mulVec, Matrix.dotProduct_mulVec,
      Matrix.vecMul_transpose]
  have hnn : 0 ≤ (S *ᵥ v) ⬝ᵥ (S *ᵥ v) :=
    Finset.sum_nonneg fun k _ => mul_self_nonneg _
  have hge : 1 ≤ eig i := by
    rw [← hquad, hsplit, hvv]
    linarith
  exact ⟨hge, by linarith⟩

/-- Witness for C9 with S the 1x1 zero matrix, Z = I and unit eigenvalue. -/
theorem exact_inversion_StS_eig_witness :
    ((1 : Matrix (Fin 1) (Fin 1) ℚ))ᵀ * 1 = 1 ∧
      ((ies.exact_inversion_StS (0 : Matrix (Fin 1) (Fin 1) ℚ))ᵀ =
          ies.exact_inversion_StS (0 : Matrix (Fin 1) (Fin 1) ℚ) ∧
        ∀ i : Fin 1, 1 ≤ (fun _ : Fin 1 => (1 : ℚ)) i ∧
          (fun _ : Fin 1 => (1 : ℚ)) i ≠ 0) :=
  ⟨by simp,
    exact_inversion_StS_eig_ge_one 0 1 (fun _ => 1) (by simp)
      (by simp [ies.exact_inversion_StS])⟩

/-- C6: for every configuration with γ_max ≥ γ_min > 0 and decay > 1,
`calculate_steplength(iter)` equals
γ_min + (γ_max − γ_min)·2^(−(iter−1)/(decay−1)), is non-increasing in iter,
and tends to γ_min as iter → ∞. -/
theorem calculate_steplength_spec (c : ies.config_type)
    (hmin : 0 < c.min_steplength)
    (hmm : c.min_steplength ≤ c.max_steplength)
    (hdec : 1 < c.dec_steplength) :
    (∀ it : ℕ, ies.calculate_steplength c it =
      (c.min_steplength : ℝ) +
        ((c.max_steplength : ℝ) - (c.min_steplength : ℝ)) *
          (2 : ℝ) ^ (-(((it : ℝ) - 1) / ((c.dec_steplength : ℝ) - 1)))) ∧
    (∀ it1 it2 : ℕ, it1 < it2 →
      ies.calculate_steplength c it2 ≤ ies.calculate_steplength c it1) ∧
    Filter.Tendsto (fun it : ℕ => ies.calculate_steplength c it)
      Filter.atTop (nhds (c.min_steplength : ℝ)) := by
  have hd : (0 : ℝ) < (c.dec_steplength : ℝ) - 1 := by
    have h1 : (1 : ℝ) < (c.dec_steplength : ℝ) := by exact_mod_cast hdec
    linarith
  have hms : (0 : ℝ) ≤ (c.max_steplength : ℝ) - (c.min_steplength : ℝ) := by
    have h2 : (c.min_steplength : ℝ) ≤ (c.max_steplength : ℝ) := by
      exact_mod_cast hmm
    linarith
  refine ⟨fun it => rfl, ?_, ?_⟩
  · intro it1 it2 h12
    unfold ies.calculate_steplength
    have hnum : ((it1 : ℝ) - 1) ≤ ((it2 : ℝ) - 1) := by
      have h3 : (it1 : ℝ) ≤ (it2 : ℝ) := by exact_mod_cast le_of_lt h12
      linarith
    have hexp : -(((it2 : ℝ) - 1) / ((c.dec_steplength : ℝ) - 1)) ≤
        -(((it1 : ℝ) - 1) / ((c.dec_steplength : ℝ) - 1)) := by
      apply neg_le_neg
      exact div_le_div_of_nonneg_right hnum (le_of_lt hd)
    have hrpow := (Real.rpow_le_rpow_left_iff one_lt_two).2 hexp
    have h4 := mul_le_mul_of_nonneg_left hrpow hms
    linarith
  · have hexp : Filter.Tendsto
        (fun it : ℕ => -(((it : ℝ) - 1) / ((c.dec_steplength : ℝ) - 1)))
        Filter.atTop Filter.atBot := by
      apply Filter.tendsto_neg_atTop_atBot.comp
      apply Filter.Tendsto.atTop_div_const hd
      simp only [sub_eq_add_neg]
      exact Filter.tendsto_atTop_add_const_right Filter.atTop (-1)
        tendsto_natCast_atTop_atTop
    have hbase : Filter.Tendsto (fun x : ℝ => (2 : ℝ) ^ x)
        Filter.atBot (nhds 0) := by
      have heq : (fun x : ℝ => (2 : ℝ) ^ x) =
          fun x : ℝ => Real.exp (Real.log 2 * x) := by
        funext x
        exact Real.rpow_def_of_pos two_pos x
      rw [heq]
      exact Real.tendsto_exp_atBot.comp
        (Filter.Tendsto.const_mul_atBot (Real.log_pos one_lt_two)
          Filter.tendsto_id)
    have h2 := hbase.comp hexp
    have h3 := (h2.const_mul
      ((c.max_steplength : ℝ) - (c.min_steplength : ℝ))).const_add
      (c.min_steplength : ℝ)
    simpa [ies.calculate_steplength] using h3

/-- Witness for C6 at the spec's S5 configuration
γ_max = 0.6, γ_min = 0.3, decay = 2.5. -/
theorem calculate_steplength_witness :
    (0 : ℚ) < 3 / 10 ∧ (3 / 10 : ℚ) ≤ 6 / 10 ∧ (1 : ℚ) < 5 / 2 ∧
      Filter.Tendsto
        (fun it : ℕ => ies.calculate_steplength
          ⟨0, Sum.inl (98 / 100), 6 / 10, 3 / 10, 5 / 2, true, none⟩ it)
        Filter.atTop (nhds ((3 / 10 : ℚ) : ℝ)) :=
  ⟨by norm_num, by norm_num, by norm_num,
    (calculate_steplength_spec
      ⟨0, Sum.inl (98 / 100), 6 / 10, 3 / 10, 5 / 2, true, none⟩
      (by norm_num) (by norm_num) (by norm_num)).2.2⟩
